import Mathlib

/-!
Shallow embedding of the envelope codec in `src/crypto.ts` (module entry
`makeCryptoWith`).  Bytes are modelled as `Nat` (kept below 256 with explicit
`% 256` wherever node `Buffer`s hold real bytes).  The node standard-library
primitives used by the source (`crypto.pbkdf2`, AES-256-GCM via
`createCipheriv`/`createDecipheriv`, `JSON.stringify`/`JSON.parse`,
`Buffer`'s base64 codec, `crypto.randomBytes`) are not part of this
repository; they are modelled from the spec (section 3, 4.3-4.5, 6) as
explicit executable functions.  The orchestration code (validation,
serialization order, envelope layout, slicing offsets, the four public
operations) is translated line by line from `src/crypto.ts`.
-/

/-! ## Serializable values (the plaintext data model)

Modelled from the spec: `JSON.stringify` / `JSON.parse` are node built-ins,
out of src/.  The spec models the plaintext as the closed sum type
`Serializable = String | Number | Bool | Array<Serializable> |
Map<String, Serializable>` and the serializer as a canonical injective text
encoding with a decoder.  JSON numbers are modelled as integers; JS strings
as byte lists.  `.null` models JSON `null`. -/

mutual

inductive JValue where
  | null : JValue
  | bool (b : Bool) : JValue
  | num (i : Int) : JValue
  | str (s : List Nat) : JValue
  | arr (xs : JList) : JValue
  | obj (kvs : JObj) : JValue
  deriving DecidableEq

inductive JList where
  | nil : JList
  | cons (v : JValue) (tl : JList) : JList
  deriving DecidableEq

inductive JObj where
  | nil : JObj
  | cons (k : List Nat) (v : JValue) (tl : JObj) : JObj
  deriving DecidableEq

end

/-- Injective encoding of a byte list into a single natural number. -/
def encL : List Nat → Nat
  | [] => 0
  | a :: t => Nat.pair a (encL t) + 1

/-- Decoder for `encL`. -/
def decL (n : Nat) : List Nat :=
  if h : n = 0 then [] else
    have : (Nat.unpair (n - 1)).2 < n :=
      lt_of_le_of_lt (Nat.unpair_right_le _) (by omega)
    (Nat.unpair (n - 1)).1 :: decL (Nat.unpair (n - 1)).2
termination_by n

theorem decL_encL : ∀ l : List Nat, decL (encL l) = l
  | [] => by rw [decL]; simp [encL]
  | a :: t => by
      rw [decL]
      simp only [encL, Nat.add_sub_cancel, Nat.unpair_pair]
      simp [decL_encL t]

theorem encL_inj {a b : List Nat} (h : encL a = encL b) : a = b := by
  have := congrArg decL h
  simpa [decL_encL] using this

/-- Sign-magnitude encoding of an integer into a natural number. -/
def encInt (i : Int) : Nat := Nat.pair (if i < 0 then 1 else 0) i.natAbs

/-- Decoder for `encInt`. -/
def decInt (n : Nat) : Int :=
  if (Nat.unpair n).1 = 0 then ((Nat.unpair n).2 : Int) else -((Nat.unpair n).2 : Int)

theorem decInt_encInt (i : Int) : decInt (encInt i) = i := by
  unfold encInt decInt
  by_cases h : i < 0 <;>
    simp only [h, if_true, if_false, Nat.unpair_pair, one_ne_zero, ite_true, ite_false] <;>
    omega

mutual

/-- Injective encoding of a serializable value into a natural number. -/
def encJ : JValue → Nat
  | .null => Nat.pair 0 0
  | .bool b => Nat.pair 1 (cond b 1 0)
  | .num i => Nat.pair 2 (encInt i)
  | .str s => Nat.pair 3 (encL s)
  | .arr xs => Nat.pair 4 (encVL xs)
  | .obj kvs => Nat.pair 5 (encOL kvs)

def encVL : JList → Nat
  | .nil => 0
  | .cons v t => Nat.pair (encJ v) (encVL t) + 1

def encOL : JObj → Nat
  | .nil => 0
  | .cons k v t => Nat.pair (Nat.pair (encL k) (encJ v)) (encOL t) + 1

end

mutual

/-- Fuelled decoder for `encJ`. -/
def decJ : Nat → Nat → Option JValue
  | 0, _ => none
  | f + 1, n =>
    match (Nat.unpair n).1, (Nat.unpair n).2 with
    | 0, _ => some .null
    | 1, p => some (.bool (p != 0))
    | 2, p => some (.num (decInt p))
    | 3, p => some (.str (decL p))
    | 4, p => (decVL f p).map JValue.arr
    | 5, p => (decOL f p).map JValue.obj
    | _, _ => none

def decVL : Nat → Nat → Option JList
  | 0, _ => none
  | f + 1, n =>
    if n = 0 then some .nil else
      match decJ f (Nat.unpair (n - 1)).1, decVL f (Nat.unpair (n - 1)).2 with
      | some v, some t => some (.cons v t)
      | _, _ => none

def decOL : Nat → Nat → Option JObj
  | 0, _ => none
  | f + 1, n =>
    if n = 0 then some .nil else
      match decJ f (Nat.unpair (Nat.unpair (n - 1)).1).2,
            decOL f (Nat.unpair (n - 1)).2 with
      | some v, some t =>
          some (.cons (decL (Nat.unpair (Nat.unpair (n - 1)).1).1) v t)
      | _, _ => none

end

mutual

/-- Fuel sufficient to decode the encoding of a value. -/
def fuelJ : JValue → Nat
  | .null => 1
  | .bool _ => 1
  | .num _ => 1
  | .str _ => 1
  | .arr xs => fuelVL xs + 1
  | .obj kvs => fuelOL kvs + 1

def fuelVL : JList → Nat
  | .nil => 1
  | .cons v t => max (fuelJ v) (fuelVL t) + 1

def fuelOL : JObj → Nat
  | .nil => 1
  | .cons _ v t => max (fuelJ v) (fuelOL t) + 1

end

mutual

theorem decJ_encJ : ∀ (v : JValue) (f : Nat), fuelJ v ≤ f → decJ f (encJ v) = some v
  | .null, 0, h => by simp [fuelJ] at h
  | .bool _, 0, h => by simp [fuelJ] at h
  | .num _, 0, h => by simp [fuelJ] at h
  | .str _, 0, h => by simp [fuelJ] at h
  | .arr _, 0, h => by simp [fuelJ] at h
  | .obj _, 0, h => by simp [fuelJ] at h
  | .null, f + 1, _ => by simp [encJ, decJ, Nat.unpair_pair]
  | .bool b, f + 1, _ => by cases b <;> simp [encJ, decJ, Nat.unpair_pair]
  | .num i, f + 1, _ => by simp [encJ, decJ, Nat.unpair_pair, decInt_encInt]
  | .str s, f + 1, _ => by simp [encJ, decJ, Nat.unpair_pair, decL_encL]
  | .arr xs, f + 1, h => by
      have ih := decVL_encVL xs f (by simp [fuelJ] at h; omega)
      simp [encJ, decJ, Nat.unpair_pair, ih]
  | .obj kvs, f + 1, h => by
      have ih := decOL_encOL kvs f (by simp [fuelJ] at h; omega)
      simp [encJ, decJ, Nat.unpair_pair, ih]

theorem decVL_encVL : ∀ (l : JList) (f : Nat), fuelVL l ≤ f → decVL f (encVL l) = some l
  | .nil, 0, h => by simp [fuelVL] at h
  | .cons _ _, 0, h => by simp [fuelVL] at h
  | .nil, f + 1, _ => by simp [encVL, decVL]
  | .cons v t, f + 1, h => by
      have h1 : fuelJ v ≤ f := by simp [fuelVL] at h; omega
      have h2 : fuelVL t ≤ f := by simp [fuelVL] at h; omega
      have ih1 := decJ_encJ v f h1
      have ih2 := decVL_encVL t f h2
      simp [encVL, decVL, Nat.unpair_pair, ih1, ih2]

theorem decOL_encOL : ∀ (l : JObj) (f : Nat), fuelOL l ≤ f → decOL f (encOL l) = some l
  | .nil, 0, h => by simp [fuelOL] at h
  | .cons _ _ _, 0, h => by simp [fuelOL] at h
  | .nil, f + 1, _ => by simp [encOL, decOL]
  | .cons k v t, f + 1, h => by
      have h1 : fuelJ v ≤ f := by simp [fuelOL] at h; omega
      have h2 : fuelOL t ≤ f := by simp [fuelOL] at h; omega
      have ih1 := decJ_encJ v f h1
      have ih2 := decOL_encOL t f h2
      simp [encOL, decOL, Nat.unpair_pair, ih1, ih2, decL_encL]

end

theorem lt_pair_of_pos {a b : Nat} (ha : 0 < a) : b < Nat.pair a b := by
  unfold Nat.pair
  split <;> nlinarith

mutual

theorem fuelJ_le : ∀ v : JValue, fuelJ v ≤ encJ v + 1
  | .null => by simp [fuelJ]
  | .bool _ => by simp [fuelJ]
  | .num _ => by simp [fuelJ]
  | .str _ => by simp [fuelJ]
  | .arr xs => by
      have ih := fuelVL_le xs
      have h4 : encVL xs < Nat.pair 4 (encVL xs) := lt_pair_of_pos (by omega)
      simp only [fuelJ, encJ]
      omega
  | .obj kvs => by
      have ih := fuelOL_le kvs
      have h5 : encOL kvs < Nat.pair 5 (encOL kvs) := lt_pair_of_pos (by omega)
      simp only [fuelJ, encJ]
      omega

theorem fuelVL_le : ∀ l : JList, fuelVL l ≤ encVL l + 1
  | .nil => by simp [fuelVL, encVL]
  | .cons v t => by
      have ih1 := fuelJ_le v
      have ih2 := fuelVL_le t
      have hl : encJ v ≤ Nat.pair (encJ v) (encVL t) := Nat.left_le_pair _ _
      have hr : encVL t ≤ Nat.pair (encJ v) (encVL t) := Nat.right_le_pair _ _
      simp only [fuelVL, encVL]
      omega

theorem fuelOL_le : ∀ l : JObj, fuelOL l ≤ encOL l + 1
  | .nil => by simp [fuelOL, encOL]
  | .cons k v t => by
      have ih1 := fuelJ_le v
      have ih2 := fuelOL_le t
      have hv : encJ v ≤ Nat.pair (encL k) (encJ v) := Nat.right_le_pair _ _
      have hl : Nat.pair (encL k) (encJ v) ≤
          Nat.pair (Nat.pair (encL k) (encJ v)) (encOL t) := Nat.left_le_pair _ _
      have hr : encOL t ≤ Nat.pair (Nat.pair (encL k) (encJ v)) (encOL t) :=
        Nat.right_le_pair _ _
      simp only [fuelOL, encOL]
      omega

end

/-- Modelled from the spec: the serializer section 4.2 — the canonical byte
encoding of a serializable value (the source delegates to `JSON.stringify`,
which is not in src/).  Every emitted byte is `< 255`. -/
def serJ (v : JValue) : List Nat := Nat.digits 255 (encJ v)

/-- Modelled from the spec: the deserializer used by Open (the source
delegates to `JSON.parse`, which is not in src/). -/
def deserJ (bytes : List Nat) : Option JValue :=
  decJ (Nat.ofDigits 255 bytes + 1) (Nat.ofDigits 255 bytes)

theorem deserJ_serJ (v : JValue) : deserJ (serJ v) = some v := by
  unfold deserJ serJ
  rw [Nat.ofDigits_digits]
  exact decJ_encJ v (encJ v + 1) (fuelJ_le v)

theorem serJ_lt (v : JValue) : ∀ b ∈ serJ v, b < 256 := by
  intro b hb
  have h := Nat.digits_lt_base (by norm_num) hb
  omega

/-! ## Base64 transport encoding

Modelled from the spec (section 6: transport text encoding = base64) and
node `Buffer.toString('base64')` / `Buffer.from(s, 'base64')`, which are
not in src/.  Standard RFC 4648 alphabet with `=` padding. -/

/-- The base64 alphabet character for a 6-bit digit. -/
def b64char (d : Nat) : Char :=
  if d < 26 then Char.ofNat (65 + d)
  else if d < 52 then Char.ofNat (97 + (d - 26))
  else if d < 62 then Char.ofNat (48 + (d - 52))
  else if d = 62 then '+' else '/'

/-- The 6-bit value of a base64 alphabet character. -/
def b64val (c : Char) : Nat :=
  if 65 ≤ c.toNat ∧ c.toNat ≤ 90 then c.toNat - 65
  else if 97 ≤ c.toNat ∧ c.toNat ≤ 122 then c.toNat - 97 + 26
  else if 48 ≤ c.toNat ∧ c.toNat ≤ 57 then c.toNat - 48 + 52
  else if c = '+' then 62
  else if c = '/' then 63 else 0

/-- Base64-encode a byte list (3 bytes to 4 characters, `=`-padded). -/
def b64encode : List Nat → List Char
  | [] => []
  | [a] => [b64char (a / 4), b64char (a % 4 * 16), '=', '=']
  | [a, b] => [b64char (a / 4), b64char (a % 4 * 16 + b / 16), b64char (b % 16 * 4), '=']
  | a :: b :: c :: rest =>
      b64char (a / 4) :: b64char (a % 4 * 16 + b / 16) ::
      b64char (b % 16 * 4 + c / 64) :: b64char (c % 64) :: b64encode rest

/-- Base64-decode a character list (inverse of `b64encode` on its image). -/
def b64decode : List Char → List Nat
  | w :: x :: y :: z :: rest =>
      if y = '=' then [b64val w * 4 + b64val x / 16]
      else if z = '=' then
        [b64val w * 4 + b64val x / 16, b64val x % 16 * 16 + b64val y / 4]
      else
        (b64val w * 4 + b64val x / 16) :: (b64val x % 16 * 16 + b64val y / 4) ::
        (b64val y % 4 * 64 + b64val z) :: b64decode rest
  | _ => []

theorem b64val_b64char : ∀ d : Nat, d < 64 → b64val (b64char d) = d := by decide

theorem b64char_ne_eq : ∀ d : Nat, d < 64 → (b64char d = '=') = False := by decide

theorem b64encode_length :
    ∀ l : List Nat, (b64encode l).length = (l.length + 2) / 3 * 4
  | [] => by simp [b64encode]
  | [a] => by simp [b64encode]
  | [a, b] => by simp [b64encode]
  | a :: b :: c :: rest => by
      have ih := b64encode_length rest
      simp only [b64encode, List.length_cons, ih]
      omega

theorem b64decode_b64encode :
    ∀ l : List Nat, (∀ b ∈ l, b < 256) → b64decode (b64encode l) = l
  | [], _ => by simp [b64encode, b64decode]
  | [a], h => by
      have ha : a < 256 := h a (by simp)
      have h1 : a / 4 < 64 := by omega
      have h2 : a % 4 * 16 < 64 := by omega
      simp only [b64encode, b64decode, eq_self_iff_true, if_true,
        b64val_b64char _ h1, b64val_b64char _ h2, List.cons.injEq, and_true]
      omega
  | [a, b], h => by
      have ha : a < 256 := h a (by simp)
      have hb : b < 256 := h b (by simp)
      have h1 : a / 4 < 64 := by omega
      have h2 : a % 4 * 16 + b / 16 < 64 := by omega
      have h3 : b % 16 * 4 < 64 := by omega
      simp only [b64encode, b64decode, b64char_ne_eq _ h3, if_false,
        eq_self_iff_true, if_true, b64val_b64char _ h1, b64val_b64char _ h2,
        b64val_b64char _ h3, List.cons.injEq, and_true]
      omega
  | a :: b :: c :: d :: rest, h => by
      have ha : a < 256 := h a (by simp)
      have hb : b < 256 := h b (by simp)
      have hc : c < 256 := h c (by simp)
      have h1 : a / 4 < 64 := by omega
      have h2 : a % 4 * 16 + b / 16 < 64 := by omega
      have h3 : b % 16 * 4 + c / 64 < 64 := by omega
      have h4 : c % 64 < 64 := by omega
      have ih := b64decode_b64encode (d :: rest)
        (by intro x hx; exact h x (by simp at hx ⊢; tauto))
      simp only [b64encode, b64decode, b64char_ne_eq _ h3, b64char_ne_eq _ h4,
        if_false, b64val_b64char _ h1, b64val_b64char _ h2, b64val_b64char _ h3,
        b64val_b64char _ h4, List.cons.injEq, ih, and_true, true_and]
      omega
  | [a, b, c], h => by
      have ha : a < 256 := h a (by simp)
      have hb : b < 256 := h b (by simp)
      have hc : c < 256 := h c (by simp)
      have h1 : a / 4 < 64 := by omega
      have h2 : a % 4 * 16 + b / 16 < 64 := by omega
      have h3 : b % 16 * 4 + c / 64 < 64 := by omega
      have h4 : c % 64 < 64 := by omega
      have hnil : b64decode (b64encode ([] : List Nat)) = [] := by
        simp [b64encode, b64decode]
      simp only [b64encode, b64decode, b64char_ne_eq _ h3, b64char_ne_eq _ h4,
        if_false, b64val_b64char _ h1, b64val_b64char _ h2, b64val_b64char _ h3,
        b64val_b64char _ h4, List.cons.injEq, and_true, true_and]
      omega

/-! ## Stream encryption and authentication tag

Modelled from the spec (section 4.4/4.5): AES-256-GCM is a stream mode —
ciphertext has exactly the plaintext's length — followed by a 16-byte tag
over (key, nonce, AAD, ciphertext).  The cipher internals are the node
library's, not in src/; the model keeps the spec-fixed shape: a keystream
added byte-wise mod 256, and a tag function.  Two instantiations are given
below: `realPrims` (concrete byte-valued functions) and `idealPrims` (the
spec's ideal tag, injective in (key, nonce, AAD, ciphertext)). -/

/-- Add a keystream byte-wise, mod 256 (GCM CTR encryption shape). -/
def xorStream (f : Nat → Nat) : Nat → List Nat → List Nat
  | _, [] => []
  | i, b :: t => (b + f i) % 256 :: xorStream f (i + 1) t

/-- Remove a keystream byte-wise, mod 256 (GCM CTR decryption shape). -/
def xorStreamDec (f : Nat → Nat) : Nat → List Nat → List Nat
  | _, [] => []
  | i, b :: t => (b + 256 - f i % 256) % 256 :: xorStreamDec f (i + 1) t

theorem xorStream_length (f : Nat → Nat) :
    ∀ (i : Nat) (l : List Nat), (xorStream f i l).length = l.length
  | _, [] => rfl
  | i, b :: t => by simp [xorStream, xorStream_length f (i + 1) t]

theorem xorStream_lt (f : Nat → Nat) :
    ∀ (i : Nat) (l : List Nat), ∀ b ∈ xorStream f i l, b < 256
  | i, b :: t => by
      intro x hx
      simp only [xorStream, List.mem_cons] at hx
      rcases hx with h | h
      · omega
      · exact xorStream_lt f (i + 1) t x h
  | _, [] => by intro x hx; simp [xorStream] at hx

theorem xorStreamDec_xorStream (f : Nat → Nat) :
    ∀ (i : Nat) (l : List Nat), (∀ b ∈ l, b < 256) →
      xorStreamDec f i (xorStream f i l) = l
  | _, [], _ => rfl
  | i, b :: t, h => by
      have hb : b < 256 := h b (by simp)
      have ih := xorStreamDec_xorStream f (i + 1) t (fun x hx => h x (by simp [hx]))
      simp only [xorStream, xorStreamDec, ih, List.cons.injEq, and_true]
      omega

/-- The trusted-library primitives the source calls out to: PBKDF2
key derivation, the GCM keystream, and the GCM authentication tag. -/
structure Prims where
  pbkdf2 : List Nat → List Nat → List Nat
  ks : List Nat → List Nat → Nat → Nat
  mac : List Nat → List Nat → Option (List Nat) → List Nat → List Nat

/-- Accumulating checksum used by the concrete primitive model. -/
def mixh (acc b : Nat) : Nat := (acc * 131 + b + 7) % 1000000007

/-- Checksum of a byte list (concrete primitive model only). -/
def hashList (seed : Nat) (l : List Nat) : Nat := l.foldl mixh seed

/-- Modelled from the spec (section 4.3): PBKDF2-HMAC-SHA512, 10000
iterations, 32-byte key — a deterministic 32-byte-output function of
(passphrase, salt); the hash internals are the node library's, not in
src/. -/
def realPbkdf2 (pass salt : List Nat) : List Nat :=
  (List.range 32).map fun i =>
    (hashList (i + 2) (pass ++ 257 :: salt) + (i + 1) * hashList 3 salt) % 256

/-- Modelled from the spec: the AES-256-GCM keystream as a deterministic
byte function of (key, nonce, position). -/
def realKs (key iv : List Nat) (i : Nat) : Nat :=
  (hashList 5 (key ++ 257 :: iv) + (i + 1) * 2654435761) % 256

/-- Modelled from the spec (section 3): the 16-byte authentication tag
produced by the AEAD cipher over (key, nonce, AAD, ciphertext). -/
def realMac (key iv : List Nat) (aad : Option (List Nat)) (ct : List Nat) : List Nat :=
  let ab := match aad with | none => [0] | some s => 1 :: s
  let h := hashList 11 (key ++ 257 :: iv ++ 258 :: ab ++ 259 :: ct)
  (List.range 16).map fun i => (h / 256 ^ i + i) % 256

/-- The concrete byte-valued primitive instantiation. -/
def realPrims : Prims := ⟨realPbkdf2, realKs, realMac⟩

theorem realPbkdf2_length (pass salt : List Nat) : (realPbkdf2 pass salt).length = 32 := by
  simp [realPbkdf2]

theorem realPbkdf2_lt (pass salt : List Nat) : ∀ b ∈ realPbkdf2 pass salt, b < 256 := by
  intro b hb
  simp only [realPbkdf2, List.mem_map, List.mem_range] at hb
  obtain ⟨i, _, rfl⟩ := hb
  omega

theorem realMac_length (key iv : List Nat) (aad : Option (List Nat)) (ct : List Nat) :
    (realMac key iv aad ct).length = 16 := by
  simp [realMac]

theorem realMac_lt (key iv : List Nat) (aad : Option (List Nat)) (ct : List Nat) :
    ∀ b ∈ realMac key iv aad ct, b < 256 := by
  intro b hb
  simp only [realMac, List.mem_map, List.mem_range] at hb
  obtain ⟨i, _, rfl⟩ := hb
  omega

/-- Injective encoding of an optional AAD byte list. -/
def encAad : Option (List Nat) → Nat
  | none => 0
  | some s => encL s + 1

theorem encAad_inj {a b : Option (List Nat)} (h : encAad a = encAad b) : a = b := by
  cases a <;> cases b <;> simp [encAad] at h ⊢
  exact encL_inj (by omega)

/-- Modelled from the spec (section 4.3): the ideal PBKDF2 — distinct
(passphrase, salt) pairs derive distinct keys.  Output has the spec-fixed
32 entries. -/
def idealPbkdf2 (pass salt : List Nat) : List Nat :=
  Nat.pair (encL pass) (encL salt) :: List.replicate 31 0

/-- Modelled from the spec (section 4.5): the ideal authentication tag —
the tag matches iff (key, nonce, AAD, ciphertext) all match, which is the
spec's stated tamper-detection property.  Output has the spec-fixed 16
entries. -/
def idealMac (key iv : List Nat) (aad : Option (List Nat)) (ct : List Nat) : List Nat :=
  Nat.pair (Nat.pair (encL key) (encL iv)) (Nat.pair (encAad aad) (encL ct)) ::
    List.replicate 15 0

/-- The ideal (symbolic) primitive instantiation used for tamper-detection
claims. -/
def idealPrims : Prims := ⟨idealPbkdf2, fun _ _ _ => 0, idealMac⟩

theorem idealPbkdf2_length (pass salt : List Nat) : (idealPbkdf2 pass salt).length = 32 := by
  simp [idealPbkdf2]

theorem idealMac_length (key iv : List Nat) (aad : Option (List Nat)) (ct : List Nat) :
    (idealMac key iv aad ct).length = 16 := by
  simp [idealMac]

theorem pair_inj {a b c d : Nat} (h : Nat.pair a b = Nat.pair c d) : a = c ∧ b = d := by
  have := congrArg Nat.unpair h
  simpa [Nat.unpair_pair] using this

theorem idealPbkdf2_inj {p1 s1 p2 s2 : List Nat}
    (h : idealPbkdf2 p1 s1 = idealPbkdf2 p2 s2) : p1 = p2 ∧ s1 = s2 := by
  simp only [idealPbkdf2, List.cons.injEq, and_true] at h
  obtain ⟨h1, h2⟩ := pair_inj h
  exact ⟨encL_inj h1, encL_inj h2⟩

theorem idealMac_inj {k1 i1 a1 c1 k2 i2 a2 c2}
    (h : idealMac k1 i1 a1 c1 = idealMac k2 i2 a2 c2) :
    k1 = k2 ∧ i1 = i2 ∧ a1 = a2 ∧ c1 = c2 := by
  simp only [idealMac, List.cons.injEq, and_true] at h
  obtain ⟨hki, hac⟩ := pair_inj h
  obtain ⟨hk, hi⟩ := pair_inj hki
  obtain ⟨ha, hc⟩ := pair_inj hac
  exact ⟨encL_inj hk, encL_inj hi, encAad_inj ha, encL_inj hc⟩

/-! ## The source module `src/crypto.ts`

Translated from the source.  JS dynamic arguments are modelled as tagged
unions (`KeyArg` for `opts.encryptionKey`, `AADArg` for the runtime value
of the optional `aad` argument, `EnvInput` for `string | Buffer` envelope
input).  Errors thrown by the source are the constructors of `CErr`; each
constructor corresponds to one `throw` site (or library failure mode).
Side effects are threaded through `St`: the random source consumed by
`crypto.randomBytes` plus an event log recording randomness draws, key
derivations and cipher invocations, in the order the source performs
them. -/

def IV_LENGTH_IN_BYTES : Nat := 12
def SALT_LENGTH_IN_BYTES : Nat := 64
def KEY_LENGTH_IN_BYTES : Nat := 32
def KEY_ITERATIONS : Nat := 10000

/-- The runtime value passed for `opts.encryptionKey : string | Buffer`
(`missing` models an absent/undefined property). -/
inductive KeyArg where
  | missing : KeyArg
  | str (s : List Nat) : KeyArg
  | buf (b : List Nat) : KeyArg
  deriving DecidableEq

/-- The runtime value passed for the optional `aad?: string` argument:
`nullish` models `undefined`/`null` (the `aad == null` test), `str` a
string, `other` any non-string runtime value. -/
inductive AADArg where
  | nullish : AADArg
  | str (s : List Nat) : AADArg
  | other : AADArg
  deriving DecidableEq

/-- The value passed to `encrypt`: a serializable value, or one that
`JSON.stringify` maps to `undefined` (function, symbol, undefined). -/
inductive Input where
  | val (v : JValue) : Input
  | func : Input
  deriving DecidableEq

/-- The `string | Buffer` envelope argument of `decrypt`. -/
inductive EnvInput where
  | text (s : List Char) : EnvInput
  | raw (b : List Nat) : EnvInput
  deriving DecidableEq

/-- One error kind per `throw` site of the source (plus the library
failure modes surfaced by `decipher.final` and `JSON.parse`). -/
inductive CErr where
  | encryptionKeyRequired : CErr
  | aadMustBeString : CErr
  | aadEmpty : CErr
  | notSerializable : CErr
  | authentication : CErr
  | syntaxError : CErr
  deriving DecidableEq

/-- Observable side effects: a randomness draw of `n` bytes, a PBKDF2
invocation, a cipher invocation. -/
inductive Ev where
  | rand (n : Nat) : Ev
  | kdf : Ev
  | cipher : Ev
  deriving DecidableEq

/-- The process's random byte source: a stream and a position. -/
structure Rng where
  f : Nat → Nat
  pos : Nat

/-- Effect state threaded through the four operations. -/
structure St where
  rng : Rng
  evs : List Ev

/-- The bytes `crypto.randomBytes(n)` returns from random source `r`. -/
def rbBytes (n : Nat) (r : Rng) : List Nat :=
  (List.range n).map fun i => r.f (r.pos + i) % 256

/-- `crypto.randomBytes(n)`: fresh random bytes, consuming the source. -/
def randomBytes (n : Nat) (st : St) : List Nat × St :=
  (rbBytes n st.rng, ⟨⟨st.rng.f, st.rng.pos + n⟩, st.evs ++ [.rand n]⟩)

theorem rbBytes_length (n : Nat) (r : Rng) : (rbBytes n r).length = n := by
  simp [rbBytes]

theorem rbBytes_lt (n : Nat) (r : Rng) : ∀ b ∈ rbBytes n r, b < 256 := by
  intro b hb
  simp only [rbBytes, List.mem_map, List.mem_range] at hb
  obtain ⟨i, _, rfl⟩ := hb
  omega

/-- Source `_validateOpts` (lines 37-41): throws when `!encryptionKey`.
JS truthiness: absent and the empty string are falsy; every `Buffer`
object (including an empty one) is truthy. -/
def _validateOpts : KeyArg → Option CErr
  | .missing => some .encryptionKeyRequired
  | .str [] => some .encryptionKeyRequired
  | .str (_ :: _) => none
  | .buf _ => none

/-- Source `_validateAAD` (lines 43-55): `aad == null` passes, a
non-string throws "AAD must be a string", an empty string throws
"AAD cannot be an empty string". -/
def _validateAAD : AADArg → Option CErr
  | .nullish => none
  | .other => some .aadMustBeString
  | .str [] => some .aadEmpty
  | .str (_ :: _) => none

/-- Source `_generateSalt` (lines 57-59). -/
def _generateSalt (st : St) : List Nat × St := randomBytes SALT_LENGTH_IN_BYTES st

/-- Source `_generateIV` (lines 61-63). -/
def _generateIV (st : St) : List Nat × St := randomBytes IV_LENGTH_IN_BYTES st

/-- Source `_generateKeySync` (lines 65-81): wraps `crypto.pbkdf2Sync`
with the fixed parameters (the `salt` string branch is dead in-module:
every caller passes a `Buffer`).  Logs the derivation. -/
def _generateKeySync (P : Prims) (encryptionKey salt : List Nat) (st : St) :
    List Nat × St :=
  (P.pbkdf2 encryptionKey salt, ⟨st.rng, st.evs ++ [.kdf]⟩)

/-- Source `_generateKey` (lines 83-109): the non-blocking entry point;
the resolved promise value is the same PBKDF2 output as the blocking
entry point. -/
def _generateKey (P : Prims) (encryptionKey salt : List Nat) (st : St) :
    List Nat × St :=
  (P.pbkdf2 encryptionKey salt, ⟨st.rng, st.evs ++ [.kdf]⟩)

/-- Source `_serialize` (lines 111-117): `JSON.stringify`, throwing when
the result is `undefined`. -/
def _serialize : Input → Option (List Nat)
  | .val v => some (serJ v)
  | .func => none

/-- Source free function `encrypt` (lines 119-136): AEAD-seal the
serialized input and return `base64(salt || iv || tag || ciphertext)`. -/
def encryptFn (P : Prims) (serializedInput iv key salt : List Nat)
    (aad : Option (List Nat)) : List Char :=
  let encrypted := xorStream (P.ks key iv) 0 serializedInput
  let tag := P.mac key iv aad encrypted
  b64encode (salt ++ iv ++ tag ++ encrypted)

/-- The raw (pre-base64) envelope bytes `Buffer.concat([salt, iv, tag,
encrypted])` built by the source `encrypt` at line 135. -/
def rawEnvelope (P : Prims) (serializedInput iv key salt : List Nat)
    (aad : Option (List Nat)) : List Nat :=
  let encrypted := xorStream (P.ks key iv) 0 serializedInput
  let tag := P.mac key iv aad encrypted
  salt ++ iv ++ tag ++ encrypted

theorem encryptFn_eq (P : Prims) (s iv key salt : List Nat) (aad : Option (List Nat)) :
    encryptFn P s iv key salt aad = b64encode (rawEnvelope P s iv key salt aad) := rfl

/-- Source free function `decrypt` (lines 138-159): slice the envelope at
the fixed offsets, AEAD-open (the decipher releases plaintext only when
the recomputed tag over (key, nonce, AAD, ciphertext) matches the stored
tag, otherwise `final()` throws the authentication error), then
`JSON.parse`. -/
def decryptFn (P : Prims) (key outputBytes : List Nat)
    (aad : Option (List Nat)) : Except CErr JValue :=
  let iv := (outputBytes.drop SALT_LENGTH_IN_BYTES).take IV_LENGTH_IN_BYTES
  let tag := (outputBytes.drop (SALT_LENGTH_IN_BYTES + IV_LENGTH_IN_BYTES)).take 16
  let text := outputBytes.drop (SALT_LENGTH_IN_BYTES + IV_LENGTH_IN_BYTES + 16)
  if P.mac key iv aad text = tag then
    match deserJ (xorStreamDec (P.ks key iv) 0 text) with
    | some v => .ok v
    | none => .error .syntaxError
  else .error .authentication

/-- Source `asBuffer` (lines 161-165): pass a `Buffer` through, decode a
string from base64. -/
def asBuffer : EnvInput → List Nat
  | .raw b => b
  | .text s => b64decode s

/-- The codec object returned by `makeCryptoWith`: the four public
operations closing over the passphrase. -/
structure Crypto where
  encrypt : Input → AADArg → St → Except CErr (List Char) × St
  decrypt : EnvInput → AADArg → St → Except CErr JValue × St
  encryptSync : Input → AADArg → St → Except CErr (List Char) × St
  decryptSync : EnvInput → AADArg → St → Except CErr JValue × St

/-- The optional AAD value forwarded to the cipher once validation
passed (`aad != null` guards the `setAAD` calls). -/
def aadOpt : AADArg → Option (List Nat)
  | .str s => some s
  | _ => none

/-- Codec method `encrypt` (source lines 175-182), the non-blocking form.
Step order as in the source: validate AAD, generate salt, serialize,
generate IV, derive key (async), seal. -/
def encryptA (P : Prims) (encryptionKey : List Nat) (input : Input)
    (aad : AADArg) (st : St) : Except CErr (List Char) × St :=
  match _validateAAD aad with
  | some e => (.error e, st)
  | none =>
    let r1 := _generateSalt st
    match _serialize input with
    | none => (.error .notSerializable, r1.2)
    | some serializedInput =>
      let r2 := _generateIV r1.2
      let r3 := _generateKey P encryptionKey r1.1 r2.2
      (.ok (encryptFn P serializedInput r2.1 r3.1 r1.1 (aadOpt aad)),
       ⟨r3.2.rng, r3.2.evs ++ [.cipher]⟩)

/-- Codec method `decrypt` (source lines 183-189), the non-blocking form:
validate AAD, normalize to bytes, take the first 64 bytes as salt, derive
key (async), open. -/
def decryptA (P : Prims) (encryptionKey : List Nat) (encryptedOutput : EnvInput)
    (aad : AADArg) (st : St) : Except CErr JValue × St :=
  match _validateAAD aad with
  | some e => (.error e, st)
  | none =>
    let outputBytes := asBuffer encryptedOutput
    let salt := outputBytes.take SALT_LENGTH_IN_BYTES
    let r1 := _generateKey P encryptionKey salt st
    (decryptFn P r1.1 outputBytes (aadOpt aad), ⟨r1.2.rng, r1.2.evs ++ [.cipher]⟩)

/-- Codec method `encryptSync` (source lines 190-197), the blocking form.
Step order as in the source: validate AAD, serialize, generate IV,
generate salt, derive key (sync), seal. -/
def encryptS (P : Prims) (encryptionKey : List Nat) (input : Input)
    (aad : AADArg) (st : St) : Except CErr (List Char) × St :=
  match _validateAAD aad with
  | some e => (.error e, st)
  | none =>
    match _serialize input with
    | none => (.error .notSerializable, st)
    | some serializedInput =>
      let r1 := _generateIV st
      let r2 := _generateSalt r1.2
      let r3 := _generateKeySync P encryptionKey r2.1 r2.2
      (.ok (encryptFn P serializedInput r1.1 r3.1 r2.1 (aadOpt aad)),
       ⟨r3.2.rng, r3.2.evs ++ [.cipher]⟩)

/-- Codec method `decryptSync` (source lines 198-202), the blocking form. -/
def decryptS (P : Prims) (encryptionKey : List Nat) (encryptedOutput : EnvInput)
    (aad : AADArg) (st : St) : Except CErr JValue × St :=
  match _validateAAD aad with
  | some e => (.error e, st)
  | none =>
    let outputBytes := asBuffer encryptedOutput
    let salt := outputBytes.take SALT_LENGTH_IN_BYTES
    let r1 := _generateKeySync P encryptionKey salt st
    (decryptFn P r1.1 outputBytes (aadOpt aad), ⟨r1.2.rng, r1.2.evs ++ [.cipher]⟩)

/-- The key material handed to PBKDF2 (string passphrases as their bytes,
buffer passphrases verbatim). -/
def keyBytes : KeyArg → List Nat
  | .missing => []
  | .str s => s
  | .buf b => b

/-- Source `makeCryptoWith` (lines 171-202): validate the options, close
over the passphrase, expose the four operations. -/
def makeCryptoWith (P : Prims) (encryptionKey : KeyArg) : Except CErr Crypto :=
  match _validateOpts encryptionKey with
  | some e => .error e
  | none =>
    .ok ⟨encryptA P (keyBytes encryptionKey), decryptA P (keyBytes encryptionKey),
         encryptS P (keyBytes encryptionKey), decryptS P (keyBytes encryptionKey)⟩

/-! ## Helper lemmas about envelope slicing -/

theorem take_app {α : Type} (a b : List α) (n : Nat) (h : a.length = n) :
    (a ++ b).take n = a := by subst h; exact List.take_left a b

theorem drop_app {α : Type} (a b : List α) (n : Nat) (h : a.length = n) :
    (a ++ b).drop n = b := by subst h; exact List.drop_left a b

theorem assoc4 (salt iv tag ct : List Nat) :
    salt ++ iv ++ tag ++ ct = salt ++ (iv ++ (tag ++ ct)) := by
  rw [List.append_assoc, List.append_assoc]

theorem env4_take64 (salt iv tag ct : List Nat) (h64 : salt.length = 64) :
    (salt ++ iv ++ tag ++ ct).take 64 = salt := by
  rw [assoc4]; exact take_app _ _ _ h64

theorem env4_drop64 (salt iv tag ct : List Nat) (h64 : salt.length = 64) :
    (salt ++ iv ++ tag ++ ct).drop 64 = iv ++ (tag ++ ct) := by
  rw [assoc4]; exact drop_app _ _ _ h64

theorem env4_iv (salt iv tag ct : List Nat) (h64 : salt.length = 64)
    (h12 : iv.length = 12) : ((salt ++ iv ++ tag ++ ct).drop 64).take 12 = iv := by
  rw [env4_drop64 _ _ _ _ h64]; exact take_app _ _ _ h12

theorem env4_drop76 (salt iv tag ct : List Nat) (h64 : salt.length = 64)
    (h12 : iv.length = 12) : (salt ++ iv ++ tag ++ ct).drop 76 = tag ++ ct := by
  have h1 : (salt ++ iv ++ tag ++ ct).drop 76 =
      ((salt ++ iv ++ tag ++ ct).drop 64).drop 12 := by rw [List.drop_drop]
  rw [h1, env4_drop64 _ _ _ _ h64]; exact drop_app _ _ _ h12

theorem env4_tag (salt iv tag ct : List Nat) (h64 : salt.length = 64)
    (h12 : iv.length = 12) (h16 : tag.length = 16) :
    ((salt ++ iv ++ tag ++ ct).drop 76).take 16 = tag := by
  rw [env4_drop76 _ _ _ _ h64 h12]; exact take_app _ _ _ h16

theorem env4_ct (salt iv tag ct : List Nat) (h64 : salt.length = 64)
    (h12 : iv.length = 12) (h16 : tag.length = 16) :
    (salt ++ iv ++ tag ++ ct).drop 92 = ct := by
  have h1 : (salt ++ iv ++ tag ++ ct).drop 92 =
      ((salt ++ iv ++ tag ++ ct).drop 76).drop 16 := by rw [List.drop_drop]
  rw [h1, env4_drop76 _ _ _ _ h64 h12]; exact drop_app _ _ _ h16

theorem set_app_left {α : Type} (a b : List α) (p : Nat) (x : α) (h : p < a.length) :
    (a ++ b).set p x = a.set p x ++ b := by
  rw [List.set_append, if_pos h]

theorem set_app_right {α : Type} (a b : List α) (p : Nat) (x : α) (h : a.length ≤ p) :
    (a ++ b).set p x = a ++ b.set (p - a.length) x := by
  rw [List.set_append, if_neg (by omega)]

theorem set_ne_self {l : List Nat} {p : Nat} {x : Nat}
    (hp : p < l.length) (hx : x ≠ l.getD p 0) : l.set p x ≠ l := by
  intro he
  apply hx
  have h1 : (l.set p x).getD p 0 = x := by
    rw [List.getD_eq_getElem _ _ (by simpa using hp)]
    exact List.getElem_set_self _
  rw [← h1, he]

/-! ## Normal-form lemmas for the four operations -/

/-- The envelope string a successful blocking encrypt returns: the source
draws the IV first, then the salt (lines 193-194). -/
def encryptSOut (P : Prims) (pass : List Nat) (v : JValue) (aad : AADArg) (st : St) :
    List Char :=
  encryptFn P (serJ v) (rbBytes 12 st.rng)
    (P.pbkdf2 pass (rbBytes 64 ⟨st.rng.f, st.rng.pos + 12⟩))
    (rbBytes 64 ⟨st.rng.f, st.rng.pos + 12⟩) (aadOpt aad)

/-- The envelope string a successful non-blocking encrypt resolves with:
the source draws the salt first, then the IV (lines 177-179). -/
def encryptAOut (P : Prims) (pass : List Nat) (v : JValue) (aad : AADArg) (st : St) :
    List Char :=
  encryptFn P (serJ v) (rbBytes 12 ⟨st.rng.f, st.rng.pos + 64⟩)
    (P.pbkdf2 pass (rbBytes 64 st.rng)) (rbBytes 64 st.rng) (aadOpt aad)

theorem encryptS_ok (P : Prims) (pass : List Nat) (v : JValue) (aad : AADArg) (st : St)
    (h : _validateAAD aad = none) :
    encryptS P pass (.val v) aad st =
      (.ok (encryptSOut P pass v aad st),
       ⟨⟨st.rng.f, st.rng.pos + 76⟩,
        st.evs ++ [.rand 12, .rand 64, .kdf, .cipher]⟩) := by
  simp [encryptS, h, _serialize, _generateIV, _generateSalt, _generateKeySync,
    randomBytes, encryptSOut, IV_LENGTH_IN_BYTES, SALT_LENGTH_IN_BYTES]

theorem encryptA_ok (P : Prims) (pass : List Nat) (v : JValue) (aad : AADArg) (st : St)
    (h : _validateAAD aad = none) :
    encryptA P pass (.val v) aad st =
      (.ok (encryptAOut P pass v aad st),
       ⟨⟨st.rng.f, st.rng.pos + 76⟩,
        st.evs ++ [.rand 64, .rand 12, .kdf, .cipher]⟩) := by
  simp [encryptA, h, _serialize, _generateIV, _generateSalt, _generateKey,
    randomBytes, encryptAOut, IV_LENGTH_IN_BYTES, SALT_LENGTH_IN_BYTES]

theorem decryptS_run (P : Prims) (pass : List Nat) (env : EnvInput) (aad : AADArg)
    (st : St) (h : _validateAAD aad = none) :
    decryptS P pass env aad st =
      (decryptFn P (P.pbkdf2 pass ((asBuffer env).take 64)) (asBuffer env) (aadOpt aad),
       ⟨st.rng, st.evs ++ [.kdf, .cipher]⟩) := by
  simp [decryptS, h, _generateKeySync, SALT_LENGTH_IN_BYTES]

theorem decryptA_run (P : Prims) (pass : List Nat) (env : EnvInput) (aad : AADArg)
    (st : St) (h : _validateAAD aad = none) :
    decryptA P pass env aad st =
      (decryptFn P (P.pbkdf2 pass ((asBuffer env).take 64)) (asBuffer env) (aadOpt aad),
       ⟨st.rng, st.evs ++ [.kdf, .cipher]⟩) := by
  simp [decryptA, h, _generateKey, SALT_LENGTH_IN_BYTES]

/-! ## Claims -/

/-- C7: In all four public operations (encrypt, decrypt, encryptSync,
decryptSync), AAD shape validation runs before any other work — on an
invalid AAD the operation fails immediately with the corresponding
validation error and the effect state is untouched (no randomness, no key
derivation, no cipher call); a non-string AAD yields the "AAD must be a
string" error, an empty-string AAD the "AAD cannot be an empty string"
error, and an absent/null AAD is accepted with no AAD binding (the cipher
receives no AAD and the operations proceed). -/
theorem c7_aad_validation_first (P : Prims) (pass : List Nat) (input : Input)
    (env : EnvInput) (v : JValue) (st : St) :
    (encryptA P pass input .other st = (.error .aadMustBeString, st)) ∧
    (decryptA P pass env .other st = (.error .aadMustBeString, st)) ∧
    (encryptS P pass input .other st = (.error .aadMustBeString, st)) ∧
    (decryptS P pass env .other st = (.error .aadMustBeString, st)) ∧
    (encryptA P pass input (.str []) st = (.error .aadEmpty, st)) ∧
    (decryptA P pass env (.str []) st = (.error .aadEmpty, st)) ∧
    (encryptS P pass input (.str []) st = (.error .aadEmpty, st)) ∧
    (decryptS P pass env (.str []) st = (.error .aadEmpty, st)) ∧
    (_validateAAD .nullish = none) ∧ (aadOpt .nullish = none) ∧
    ((encryptS P pass (.val v) .nullish st).1 = .ok (encryptSOut P pass v .nullish st)) ∧
    ((encryptA P pass (.val v) .nullish st).1 = .ok (encryptAOut P pass v .nullish st)) ∧
    ((decryptS P pass env .nullish st).1 =
      decryptFn P (P.pbkdf2 pass ((asBuffer env).take 64)) (asBuffer env) none) ∧
    ((decryptA P pass env .nullish st).1 =
      decryptFn P (P.pbkdf2 pass ((asBuffer env).take 64)) (asBuffer env) none) := by
  refine ⟨?_, ?_, ?_, ?_, ?_, ?_, ?_, ?_, rfl, rfl, ?_, ?_, ?_, ?_⟩
  · simp [encryptA, _validateAAD]
  · simp [decryptA, _validateAAD]
  · simp [encryptS, _validateAAD]
  · simp [decryptS, _validateAAD]
  · simp [encryptA, _validateAAD]
  · simp [decryptA, _validateAAD]
  · simp [encryptS, _validateAAD]
  · simp [decryptS, _validateAAD]
  · rw [encryptS_ok P pass v .nullish st rfl]
  · rw [encryptA_ok P pass v .nullish st rfl]
  · exact congrArg Prod.fst (decryptS_run P pass env .nullish st rfl)
  · exact congrArg Prod.fst (decryptA_run P pass env .nullish st rfl)


/-- C8 counterexample: construction with an empty byte-sequence
passphrase does NOT fail — `!encryptionKey` is false for every `Buffer`
object (JS objects are truthy, even an empty buffer), so
`makeCryptoWith({ encryptionKey: Buffer.alloc(0) })` succeeds, refuting
the claim that empty byte-sequence passphrases are rejected. -/
theorem c8_empty_buffer_accepted :
    (makeCryptoWith realPrims (.buf [])).isOk = true := rfl

/-- C8 (amended): construction fails with the configuration error exactly
when the passphrase is missing or is an empty string; any non-empty string
passphrase and any byte-sequence passphrase — including the empty one —
is accepted, and the returned codec exposes the four operations closing
over the passphrase bytes. -/
theorem c8_construction (P : Prims) (s b : List Nat) (hs : s ≠ []) :
    makeCryptoWith P .missing = .error .encryptionKeyRequired ∧
    makeCryptoWith P (.str []) = .error .encryptionKeyRequired ∧
    makeCryptoWith P (.str s) =
      .ok ⟨encryptA P s, decryptA P s, encryptS P s, decryptS P s⟩ ∧
    makeCryptoWith P (.buf b) =
      .ok ⟨encryptA P b, decryptA P b, encryptS P b, decryptS P b⟩ := by
  refine ⟨rfl, rfl, ?_, rfl⟩
  cases s with
  | nil => exact absurd rfl hs
  | cons a t => rfl

/-- C8 witness. -/
theorem c8_construction_witness :
    makeCryptoWith realPrims (.str [7]) =
      .ok ⟨encryptA realPrims [7], decryptA realPrims [7],
           encryptS realPrims [7], decryptS realPrims [7]⟩ :=
  (c8_construction realPrims [7] [] (by decide)).2.2.1

/-- C9: decryption is deterministic and consumes no randomness — for any
envelope input, AAD and passphrase, the outcome of decryptSync (and of
decrypt) does not depend on the effect state, the blocking and
non-blocking forms agree, and the random source is untouched. -/
theorem c9_decrypt_deterministic (P : Prims) (pass : List Nat) (env : EnvInput)
    (aad : AADArg) (st st2 : St) :
    ((decryptS P pass env aad st).1 = (decryptS P pass env aad st2).1) ∧
    ((decryptA P pass env aad st).1 = (decryptA P pass env aad st2).1) ∧
    ((decryptA P pass env aad st).1 = (decryptS P pass env aad st).1) ∧
    ((decryptS P pass env aad st).2.rng = st.rng) ∧
    ((decryptA P pass env aad st).2.rng = st.rng) := by
  cases h : _validateAAD aad <;>
    simp [decryptS, decryptA, h, _generateKeySync, _generateKey]

/-- A concrete effect state (identity random stream at position 0). -/
def st0 : St := ⟨⟨fun i => i, 0⟩, []⟩

/-- C3 counterexample: in the non-blocking form the salt is generated
before the serialization check (source lines 177-178), so encrypting a
non-serializable value fails with the serialization error only after 64
bytes of randomness have been consumed — refuting the claim that no
randomness is consumed before the check in both forms. -/
theorem c3_async_salt_before_serialize :
    (encryptA realPrims [1] .func .nullish st0).1 = .error .notSerializable ∧
    (encryptA realPrims [1] .func .nullish st0).2.rng.pos = 64 ∧
    (encryptA realPrims [1] .func .nullish st0).2.evs = [.rand 64] :=
  ⟨rfl, rfl, rfl⟩

/-- C3 (amended): in the blocking form, a failed serialization occurs
before any randomness, key derivation or cipher work — the operation
fails with the serialization error and the effect state is unchanged.  In
the non-blocking form the 64-byte salt draw precedes the serialization
check, but on failure nothing else has happened: no nonce generation, no
key derivation, no cipher invocation. -/
theorem c3_serialization_hygiene (P : Prims) (pass : List Nat) (aad : AADArg)
    (st : St) (h : _validateAAD aad = none) :
    encryptS P pass .func aad st = (.error .notSerializable, st) ∧
    encryptA P pass .func aad st =
      (.error .notSerializable,
       ⟨⟨st.rng.f, st.rng.pos + 64⟩, st.evs ++ [.rand 64]⟩) := by
  constructor
  · simp [encryptS, h, _serialize]
  · simp [encryptA, h, _serialize, _generateSalt, randomBytes, SALT_LENGTH_IN_BYTES]

/-- C3 witness. -/
theorem c3_serialization_hygiene_witness :
    encryptS realPrims [1] .func .nullish st0 = (.error .notSerializable, st0) ∧
    encryptA realPrims [1] .func .nullish st0 =
      (.error .notSerializable,
       ⟨⟨st0.rng.f, st0.rng.pos + 64⟩, st0.evs ++ [.rand 64]⟩) :=
  c3_serialization_hygiene realPrims [1] .nullish st0 rfl

/-- C10: any input whose decoded byte form is shorter than 92 bytes (too
short to hold the 64-byte salt, 12-byte nonce and 16-byte tag) makes
decrypt and decryptSync fail without returning a plaintext value: the
fixed-offset tag slice is shorter than the 16-byte recomputed tag, so the
authentication check rejects it. -/
theorem c10_short_envelope_rejected (P : Prims)
    (hmac : ∀ k i a c, (P.mac k i a c).length = 16)
    (pass : List Nat) (env : EnvInput) (aad : AADArg) (st : St)
    (hlen : (asBuffer env).length < 92) (hA : _validateAAD aad = none) :
    (decryptS P pass env aad st).1 = .error .authentication ∧
    (decryptA P pass env aad st).1 = .error .authentication := by
  have hcore : ∀ key, decryptFn P key (asBuffer env) (aadOpt aad) = .error .authentication := by
    intro key
    unfold decryptFn
    have htag : (((asBuffer env).drop
        (SALT_LENGTH_IN_BYTES + IV_LENGTH_IN_BYTES)).take 16).length < 16 := by
      simp only [List.length_take, List.length_drop, SALT_LENGTH_IN_BYTES,
        IV_LENGTH_IN_BYTES]
      omega
    rw [if_neg]
    intro he
    have := congrArg List.length he
    rw [hmac] at this
    omega
  constructor
  · rw [congrArg Prod.fst (decryptS_run P pass env aad st hA), hcore]
  · rw [congrArg Prod.fst (decryptA_run P pass env aad st hA), hcore]

/-- C10 witness. -/
theorem c10_short_envelope_rejected_witness :
    (decryptS realPrims [1] (.raw [5, 6, 7]) .nullish st0).1 = .error .authentication ∧
    (decryptA realPrims [1] (.raw [5, 6, 7]) .nullish st0).1 = .error .authentication :=
  c10_short_envelope_rejected realPrims (fun k i a c => realMac_length k i a c)
    [1] (.raw [5, 6, 7]) .nullish st0 (by decide) rfl

/-- Effect state whose random source replays the byte list `l`. -/
def mkSt (l : List Nat) : St := ⟨⟨fun i => l.getD i 0, 0⟩, []⟩

theorem rbBytes_eq (n : Nat) (f : Nat → Nat) (pos : Nat) (l : List Nat)
    (hlen : l.length = n) (hlt : ∀ b ∈ l, b < 256)
    (hf : ∀ i, i < n → f (pos + i) = l.getD i 0) :
    rbBytes n ⟨f, pos⟩ = l := by
  apply List.ext_getElem
  · simp [rbBytes, hlen]
  · intro i h1 h2
    simp only [rbBytes, List.getElem_map, List.getElem_range]
    have hi : i < n := by simpa [rbBytes] using h1
    rw [hf i hi]
    have hil : i < l.length := by omega
    rw [List.getD_eq_getElem _ _ hil]
    exact Nat.mod_eq_of_lt (hlt _ (List.getElem_mem hil))

theorem rb_first (a b : List Nat) (n : Nat) (hlen : a.length = n)
    (hlt : ∀ x ∈ a, x < 256) : rbBytes n (mkSt (a ++ b)).rng = a := by
  apply rbBytes_eq n _ 0 a hlen hlt
  intro i hi
  simp only [Nat.zero_add]
  exact List.getD_append a b 0 i (by omega)

theorem rb_second (a b : List Nat) (n m : Nat) (hna : a.length = n)
    (hmb : b.length = m) (hlt : ∀ x ∈ b, x < 256) :
    rbBytes m ⟨(mkSt (a ++ b)).rng.f, n⟩ = b := by
  apply rbBytes_eq m _ n b hmb hlt
  intro i hi
  simp only [mkSt]
  rw [List.getD_append_right a b 0 (n + i) (by omega)]
  congr 1
  omega

/-- C4: the blocking and non-blocking forms of Seal produce byte-identical
envelopes for identical inputs — when the random source hands each form
the same salt and the same nonce, both return exactly
`base64(salt || iv || tag || ciphertext)` computed by the shared sealing
function from the same PBKDF2-derived key, and the two key-derivation
entry points return identical keys for identical (passphrase, salt). -/
theorem c4_sync_async_identical (P : Prims) (pass : List Nat) (v : JValue)
    (aad : AADArg) (salt iv : List Nat) (h64 : salt.length = 64)
    (h12 : iv.length = 12) (hsb : ∀ b ∈ salt, b < 256) (hib : ∀ b ∈ iv, b < 256)
    (hA : _validateAAD aad = none) :
    (encryptA P pass (.val v) aad (mkSt (salt ++ iv))).1 =
      (encryptS P pass (.val v) aad (mkSt (iv ++ salt))).1 ∧
    (encryptA P pass (.val v) aad (mkSt (salt ++ iv))).1 =
      .ok (encryptFn P (serJ v) iv (P.pbkdf2 pass salt) salt (aadOpt aad)) ∧
    (∀ st, _generateKey P pass salt st = _generateKeySync P pass salt st) := by
  have ha : (encryptA P pass (.val v) aad (mkSt (salt ++ iv))).1 =
      .ok (encryptAOut P pass v aad (mkSt (salt ++ iv))) :=
    congrArg Prod.fst (encryptA_ok P pass v aad _ hA)
  have hs : (encryptS P pass (.val v) aad (mkSt (iv ++ salt))).1 =
      .ok (encryptSOut P pass v aad (mkSt (iv ++ salt))) :=
    congrArg Prod.fst (encryptS_ok P pass v aad _ hA)
  have houtA : encryptAOut P pass v aad (mkSt (salt ++ iv)) =
      encryptFn P (serJ v) iv (P.pbkdf2 pass salt) salt (aadOpt aad) := by
    unfold encryptAOut
    rw [show (mkSt (salt ++ iv)).rng.pos + 64 = 64 by simp [mkSt]]
    rw [rb_first salt iv 64 h64 hsb, rb_second salt iv 64 12 h64 h12 hib]
  have houtS : encryptSOut P pass v aad (mkSt (iv ++ salt)) =
      encryptFn P (serJ v) iv (P.pbkdf2 pass salt) salt (aadOpt aad) := by
    unfold encryptSOut
    rw [show (mkSt (iv ++ salt)).rng.pos + 12 = 12 by simp [mkSt]]
    rw [rb_first iv salt 12 h12 hib, rb_second iv salt 12 64 h12 h64 hsb]
  refine ⟨?_, ?_, fun st => rfl⟩
  · rw [ha, hs, houtA, houtS]
  · rw [ha, houtA]

/-- C4 witness. -/
theorem c4_sync_async_identical_witness :
    (encryptA realPrims [1] (.val .null) .nullish
        (mkSt (List.replicate 64 9 ++ List.replicate 12 3))).1 =
      (encryptS realPrims [1] (.val .null) .nullish
        (mkSt (List.replicate 12 3 ++ List.replicate 64 9))).1 :=
  (c4_sync_async_identical realPrims [1] .null .nullish
    (List.replicate 64 9) (List.replicate 12 3) (by decide) (by decide)
    (by decide) (by decide) rfl).1

theorem decryptFn_shape (P : Prims) (key salt iv tag ct : List Nat)
    (aad : Option (List Nat)) (h64 : salt.length = 64) (h12 : iv.length = 12)
    (h16 : tag.length = 16) :
    decryptFn P key (salt ++ iv ++ tag ++ ct) aad =
      (if P.mac key iv aad ct = tag then
        match deserJ (xorStreamDec (P.ks key iv) 0 ct) with
        | some v => Except.ok v
        | none => Except.error CErr.syntaxError
       else Except.error CErr.authentication) := by
  unfold decryptFn
  simp only [SALT_LENGTH_IN_BYTES, IV_LENGTH_IN_BYTES]
  norm_num
  rw [show salt ++ (iv ++ (tag ++ ct)) = salt ++ iv ++ tag ++ ct from
        (assoc4 salt iv tag ct).symm,
      env4_iv _ _ _ _ h64 h12, env4_tag _ _ _ _ h64 h12 h16,
      env4_ct _ _ _ _ h64 h12 h16]

/-- C5: every envelope produced by Seal is
`salt(64) || nonce(12) || tag(16) || ciphertext` encoded as base64 text,
and Open parses the decoded bytes at exactly the fixed offsets `[0,64)`
(salt), `[64,76)` (nonce), `[76,92)` (tag), `[92,end)` (ciphertext):
the sealing function returns the base64 encoding of that concatenation,
the slices of any well-shaped envelope recover its four components,
decrypt's core compares the recomputed tag against the `[76,92)` slice
and deciphers the `[92,end)` slice, and the envelope is accepted as raw
bytes or as base64 text (decoding restores the same bytes). -/
theorem c5_envelope_layout (P : Prims) (s iv key salt : List Nat)
    (aad : Option (List Nat)) (salt2 iv2 tag2 ct2 key2 : List Nat)
    (aad2 : Option (List Nat)) (h64 : salt2.length = 64) (h12 : iv2.length = 12)
    (h16 : tag2.length = 16) (hb : ∀ b ∈ salt2 ++ iv2 ++ tag2 ++ ct2, b < 256) :
    (encryptFn P s iv key salt aad =
      b64encode (salt ++ iv ++ P.mac key iv aad (xorStream (P.ks key iv) 0 s) ++
        xorStream (P.ks key iv) 0 s)) ∧
    ((salt2 ++ iv2 ++ tag2 ++ ct2).take 64 = salt2) ∧
    (((salt2 ++ iv2 ++ tag2 ++ ct2).drop 64).take 12 = iv2) ∧
    (((salt2 ++ iv2 ++ tag2 ++ ct2).drop 76).take 16 = tag2) ∧
    ((salt2 ++ iv2 ++ tag2 ++ ct2).drop 92 = ct2) ∧
    (decryptFn P key2 (salt2 ++ iv2 ++ tag2 ++ ct2) aad2 =
      (if P.mac key2 iv2 aad2 ct2 = tag2 then
        match deserJ (xorStreamDec (P.ks key2 iv2) 0 ct2) with
        | some v => Except.ok v
        | none => Except.error CErr.syntaxError
       else Except.error CErr.authentication)) ∧
    (asBuffer (.raw (salt2 ++ iv2 ++ tag2 ++ ct2)) = salt2 ++ iv2 ++ tag2 ++ ct2) ∧
    (asBuffer (.text (b64encode (salt2 ++ iv2 ++ tag2 ++ ct2))) =
      salt2 ++ iv2 ++ tag2 ++ ct2) :=
  ⟨rfl, env4_take64 _ _ _ _ h64, env4_iv _ _ _ _ h64 h12,
   env4_tag _ _ _ _ h64 h12 h16, env4_ct _ _ _ _ h64 h12 h16,
   decryptFn_shape P key2 salt2 iv2 tag2 ct2 aad2 h64 h12 h16, rfl,
   b64decode_b64encode _ hb⟩

/-- C5 witness. -/
theorem c5_envelope_layout_witness :
    asBuffer (.text (b64encode (List.replicate 64 1 ++ List.replicate 12 2 ++
        List.replicate 16 3 ++ [9]))) =
      List.replicate 64 1 ++ List.replicate 12 2 ++ List.replicate 16 3 ++ [9] :=
  (c5_envelope_layout realPrims [] [] [] [] none (List.replicate 64 1)
    (List.replicate 12 2) (List.replicate 16 3) [9] [] none (by decide)
    (by decide) (by decide) (by decide)).2.2.2.2.2.2.2

theorem rawEnvelope_length_real (s iv key salt : List Nat) (aad : Option (List Nat))
    (h64 : salt.length = 64) (h12 : iv.length = 12) :
    (rawEnvelope realPrims s iv key salt aad).length = 92 + s.length := by
  unfold rawEnvelope
  simp only [List.length_append, h64, h12, xorStream_length]
  have : (realPrims.mac key iv aad (xorStream (realPrims.ks key iv) 0 s)).length = 16 :=
    realMac_length _ _ _ _
  omega

/-- C6: for every successful Seal the raw (pre-base64) envelope length is
`64 + 12 + 16 + N` where `N` is the byte length of the serialized
plaintext — the ciphertext is exactly as long as the plaintext —
and the returned base64 string has length `ceil((92+N)/3)*4`
(written `(92+N+2)/3*4` in natural division), for both the blocking and
the non-blocking form. -/
theorem c6_envelope_length (pass : List Nat) (v : JValue) (aad : AADArg) (st : St)
    (key iv salt : List Nat) (h64 : salt.length = 64) (h12 : iv.length = 12)
    (hA : _validateAAD aad = none) :
    ((xorStream (realPrims.ks key iv) 0 (serJ v)).length = (serJ v).length) ∧
    ((rawEnvelope realPrims (serJ v) iv key salt (aadOpt aad)).length =
      92 + (serJ v).length) ∧
    ((encryptFn realPrims (serJ v) iv key salt (aadOpt aad)).length =
      (92 + (serJ v).length + 2) / 3 * 4) ∧
    ((encryptS realPrims pass (.val v) aad st).1 =
      .ok (encryptSOut realPrims pass v aad st)) ∧
    ((encryptSOut realPrims pass v aad st).length =
      (92 + (serJ v).length + 2) / 3 * 4) ∧
    ((encryptA realPrims pass (.val v) aad st).1 =
      .ok (encryptAOut realPrims pass v aad st)) ∧
    ((encryptAOut realPrims pass v aad st).length =
      (92 + (serJ v).length + 2) / 3 * 4) := by
  have hlen : ∀ (key2 iv2 salt2 : List Nat), iv2.length = 12 → salt2.length = 64 →
      (encryptFn realPrims (serJ v) iv2 key2 salt2 (aadOpt aad)).length =
        (92 + (serJ v).length + 2) / 3 * 4 := by
    intro key2 iv2 salt2 hi hs
    rw [encryptFn_eq, b64encode_length,
        rawEnvelope_length_real _ _ _ _ _ hs hi]
  refine ⟨xorStream_length _ _ _,
    rawEnvelope_length_real _ _ _ _ _ h64 h12, hlen key iv salt h12 h64,
    congrArg Prod.fst (encryptS_ok realPrims pass v aad st hA), ?_,
    congrArg Prod.fst (encryptA_ok realPrims pass v aad st hA), ?_⟩
  · unfold encryptSOut
    exact hlen _ _ _ (rbBytes_length _ _) (rbBytes_length _ _)
  · unfold encryptAOut
    exact hlen _ _ _ (rbBytes_length _ _) (rbBytes_length _ _)

/-- C6 witness. -/
theorem c6_envelope_length_witness :
    (encryptSOut realPrims [1] .null .nullish st0).length =
      (92 + (serJ .null).length + 2) / 3 * 4 :=
  (c6_envelope_length [1] .null .nullish st0 [] (List.replicate 12 0)
    (List.replicate 64 0) (by decide) (by decide) rfl).2.2.2.2.1

theorem rawEnvelope_lt_real (s iv key salt : List Nat) (aad : Option (List Nat))
    (hsb : ∀ b ∈ salt, b < 256) (hib : ∀ b ∈ iv, b < 256)
    : ∀ b ∈ rawEnvelope realPrims s iv key salt aad, b < 256 := by
  intro b hb
  simp only [rawEnvelope, List.append_assoc, List.mem_append] at hb
  rcases hb with h | h | h | h
  · exact hsb b h
  · exact hib b h
  · exact realMac_lt _ _ _ _ b h
  · exact xorStream_lt _ _ _ b h

theorem rawEnvelope_def (P : Prims) (s iv key salt : List Nat)
    (aad : Option (List Nat)) :
    rawEnvelope P s iv key salt aad =
      salt ++ iv ++ P.mac key iv aad (xorStream (P.ks key iv) 0 s) ++
        xorStream (P.ks key iv) 0 s := rfl

theorem open_sealed (pass : List Nat) (v : JValue) (aad : Option (List Nat))
    (salt iv : List Nat) (h64 : salt.length = 64) (h12 : iv.length = 12)
    (hsb : ∀ b ∈ salt, b < 256) (hib : ∀ b ∈ iv, b < 256) :
    decryptFn realPrims
      (realPrims.pbkdf2 pass
        ((asBuffer (.text (encryptFn realPrims (serJ v) iv
          (realPrims.pbkdf2 pass salt) salt aad))).take 64))
      (asBuffer (.text (encryptFn realPrims (serJ v) iv
        (realPrims.pbkdf2 pass salt) salt aad))) aad = .ok v := by
  have hraw : asBuffer (.text (encryptFn realPrims (serJ v) iv
      (realPrims.pbkdf2 pass salt) salt aad)) =
      salt ++ iv ++
        realPrims.mac (realPrims.pbkdf2 pass salt) iv aad
          (xorStream (realPrims.ks (realPrims.pbkdf2 pass salt) iv) 0 (serJ v)) ++
        xorStream (realPrims.ks (realPrims.pbkdf2 pass salt) iv) 0 (serJ v) := by
    show b64decode (encryptFn realPrims (serJ v) iv
      (realPrims.pbkdf2 pass salt) salt aad) = _
    rw [encryptFn_eq, b64decode_b64encode _ (rawEnvelope_lt_real _ _ _ _ _ hsb hib),
        rawEnvelope_def]
  rw [hraw, env4_take64 _ _ _ _ h64,
      decryptFn_shape realPrims (realPrims.pbkdf2 pass salt) salt iv
        (realPrims.mac (realPrims.pbkdf2 pass salt) iv aad
          (xorStream (realPrims.ks (realPrims.pbkdf2 pass salt) iv) 0 (serJ v)))
        (xorStream (realPrims.ks (realPrims.pbkdf2 pass salt) iv) 0 (serJ v))
        aad h64 h12 (realMac_length _ _ _ _),
      if_pos rfl,
      xorStreamDec_xorStream _ 0 (serJ v) (serJ_lt v), deserJ_serJ]

set_option maxHeartbeats 1600000 in
/-- C1: for every serializable value `v`, every valid AAD (absent or a
non-empty string) and any passphrase, decrypting the result of encrypting
`v` with the same AAD under the same codec returns `v`, in both the
blocking and the non-blocking form, for any salt and nonce the random
source produced: `decryptSync(encryptSync(v, a), a) = v` and
`decrypt(encrypt(v, a), a) = v`. -/
theorem c1_roundtrip (pass : List Nat) (v : JValue) (aad : AADArg) (st st2 : St)
    (hA : _validateAAD aad = none) :
    ((encryptS realPrims pass (.val v) aad st).1 =
      .ok (encryptSOut realPrims pass v aad st)) ∧
    ((decryptS realPrims pass (.text (encryptSOut realPrims pass v aad st))
        aad st2).1 = .ok v) ∧
    ((encryptA realPrims pass (.val v) aad st).1 =
      .ok (encryptAOut realPrims pass v aad st)) ∧
    ((decryptA realPrims pass (.text (encryptAOut realPrims pass v aad st))
        aad st2).1 = .ok v) := by
  refine ⟨congrArg Prod.fst (encryptS_ok realPrims pass v aad st hA), ?_,
          congrArg Prod.fst (encryptA_ok realPrims pass v aad st hA), ?_⟩
  · rw [congrArg Prod.fst (decryptS_run realPrims pass _ aad st2 hA)]
    unfold encryptSOut
    exact open_sealed pass v (aadOpt aad)
      (rbBytes 64 ⟨st.rng.f, st.rng.pos + 12⟩) (rbBytes 12 st.rng)
      (rbBytes_length _ _) (rbBytes_length _ _) (rbBytes_lt _ _) (rbBytes_lt _ _)
  · rw [congrArg Prod.fst (decryptA_run realPrims pass _ aad st2 hA)]
    unfold encryptAOut
    exact open_sealed pass v (aadOpt aad)
      (rbBytes 64 st.rng) (rbBytes 12 ⟨st.rng.f, st.rng.pos + 64⟩)
      (rbBytes_length _ _) (rbBytes_length _ _) (rbBytes_lt _ _) (rbBytes_lt _ _)

/-- C1 witness. -/
theorem c1_roundtrip_witness :
    (decryptS realPrims [1] (.text (encryptSOut realPrims [1] .null .nullish st0))
      .nullish st0).1 = .ok .null :=
  (c1_roundtrip [1] .null .nullish st0 st0 rfl).2.1

/-! ## Byte-flip localization lemmas -/

theorem set4_salt (salt iv tag ct : List Nat) (p : Nat) (b : Nat)
    (hp : p < salt.length) :
    (salt ++ iv ++ tag ++ ct).set p b = salt.set p b ++ iv ++ tag ++ ct := by
  have h1 : p < ((salt ++ iv) ++ tag).length := by simp [List.length_append]; omega
  have h2 : p < (salt ++ iv).length := by simp [List.length_append]; omega
  rw [set_app_left _ _ _ _ h1, set_app_left _ _ _ _ h2, set_app_left _ _ _ _ hp]

theorem set4_iv (salt iv tag ct : List Nat) (p : Nat) (b : Nat)
    (hp1 : salt.length ≤ p) (hp2 : p < salt.length + iv.length) :
    (salt ++ iv ++ tag ++ ct).set p b =
      salt ++ iv.set (p - salt.length) b ++ tag ++ ct := by
  have h1 : p < ((salt ++ iv) ++ tag).length := by simp [List.length_append]; omega
  have h2 : p < (salt ++ iv).length := by simp [List.length_append]; omega
  rw [set_app_left _ _ _ _ h1, set_app_left _ _ _ _ h2, set_app_right _ _ _ _ hp1]

theorem set4_tag (salt iv tag ct : List Nat) (p : Nat) (b : Nat)
    (hp1 : salt.length + iv.length ≤ p)
    (hp2 : p < salt.length + iv.length + tag.length) :
    (salt ++ iv ++ tag ++ ct).set p b =
      salt ++ iv ++ tag.set (p - salt.length - iv.length) b ++ ct := by
  have h1 : p < ((salt ++ iv) ++ tag).length := by simp [List.length_append]; omega
  have h2 : (salt ++ iv).length ≤ p := by simp [List.length_append]; omega
  rw [set_app_left _ _ _ _ h1, set_app_right _ _ _ _ h2]
  have h3 : p - (salt ++ iv).length = p - salt.length - iv.length := by
    simp only [List.length_append]
    omega
  rw [h3]

theorem set4_ct (salt iv tag ct : List Nat) (p : Nat) (b : Nat)
    (hp1 : salt.length + iv.length + tag.length ≤ p) :
    (salt ++ iv ++ tag ++ ct).set p b =
      salt ++ iv ++ tag ++ ct.set (p - salt.length - iv.length - tag.length) b := by
  have h1 : ((salt ++ iv) ++ tag).length ≤ p := by simp [List.length_append]; omega
  rw [set_app_right _ _ _ _ h1]
  have h3 : p - ((salt ++ iv) ++ tag).length =
      p - salt.length - iv.length - tag.length := by
    simp only [List.length_append]
    omega
  rw [h3]

theorem getD4_salt (salt iv tag ct : List Nat) (p : Nat) (hp : p < salt.length) :
    (salt ++ iv ++ tag ++ ct).getD p 0 = salt.getD p 0 := by
  rw [List.getD_append _ _ _ _ (by simp [List.length_append]; omega),
      List.getD_append _ _ _ _ (by simp [List.length_append]; omega),
      List.getD_append _ _ _ _ hp]

theorem getD4_iv (salt iv tag ct : List Nat) (p : Nat)
    (hp1 : salt.length ≤ p) (hp2 : p < salt.length + iv.length) :
    (salt ++ iv ++ tag ++ ct).getD p 0 = iv.getD (p - salt.length) 0 := by
  rw [List.getD_append _ _ _ _ (by simp [List.length_append]; omega),
      List.getD_append _ _ _ _ (by simp [List.length_append]; omega),
      List.getD_append_right _ _ _ _ hp1]

theorem getD4_tag (salt iv tag ct : List Nat) (p : Nat)
    (hp1 : salt.length + iv.length ≤ p)
    (hp2 : p < salt.length + iv.length + tag.length) :
    (salt ++ iv ++ tag ++ ct).getD p 0 =
      tag.getD (p - salt.length - iv.length) 0 := by
  rw [List.getD_append _ _ _ _ (by simp [List.length_append]; omega),
      List.getD_append_right _ _ _ _ (by simp [List.length_append]; omega)]
  have h3 : p - (salt ++ iv).length = p - salt.length - iv.length := by
    simp only [List.length_append]
    omega
  rw [h3]

theorem getD4_ct (salt iv tag ct : List Nat) (p : Nat)
    (hp1 : salt.length + iv.length + tag.length ≤ p) :
    (salt ++ iv ++ tag ++ ct).getD p 0 =
      ct.getD (p - salt.length - iv.length - tag.length) 0 := by
  rw [List.getD_append_right _ _ _ _ (by simp [List.length_append]; omega)]
  have h3 : p - ((salt ++ iv) ++ tag).length =
      p - salt.length - iv.length - tag.length := by
    simp only [List.length_append]
    omega
  rw [h3]

theorem ideal_open_fail (pass salt2 iv2 tag2 ct2 : List Nat) (aad2 : Option (List Nat))
    (h64 : salt2.length = 64) (h12 : iv2.length = 12) (h16 : tag2.length = 16)
    (hne : idealPrims.mac (idealPrims.pbkdf2 pass salt2) iv2 aad2 ct2 ≠ tag2) :
    decryptFn idealPrims
      (idealPrims.pbkdf2 pass ((salt2 ++ iv2 ++ tag2 ++ ct2).take 64))
      (salt2 ++ iv2 ++ tag2 ++ ct2) aad2 = .error .authentication := by
  rw [env4_take64 _ _ _ _ h64,
      decryptFn_shape idealPrims (idealPrims.pbkdf2 pass salt2) salt2 iv2 tag2 ct2
        aad2 h64 h12 h16,
      if_neg hne]

theorem c2_flip (pass salt iv ct : List Nat) (aad : Option (List Nat))
    (h64 : salt.length = 64) (h12 : iv.length = 12) (p b : Nat)
    (hp : p < 92 + ct.length)
    (hb : b ≠ (salt ++ iv ++ idealPrims.mac (idealPrims.pbkdf2 pass salt) iv aad ct ++
      ct).getD p 0) :
    decryptFn idealPrims
      (idealPrims.pbkdf2 pass
        (((salt ++ iv ++ idealPrims.mac (idealPrims.pbkdf2 pass salt) iv aad ct ++
          ct).set p b).take 64))
      ((salt ++ iv ++ idealPrims.mac (idealPrims.pbkdf2 pass salt) iv aad ct ++
        ct).set p b) aad = .error .authentication := by
  have h16 : (idealPrims.mac (idealPrims.pbkdf2 pass salt) iv aad ct).length = 16 :=
    idealMac_length _ _ _ _
  by_cases hc1 : p < 64
  · rw [set4_salt _ _ _ _ p b (by omega)]
    rw [getD4_salt _ _ _ _ p (by omega)] at hb
    refine ideal_open_fail pass (salt.set p b) iv _ ct aad (by simp [h64]) h12 h16 ?_
    intro he
    obtain ⟨hk, _, _, _⟩ := idealMac_inj he
    obtain ⟨_, hs⟩ := idealPbkdf2_inj hk
    exact set_ne_self (by omega) hb hs
  · by_cases hc2 : p < 76
    · rw [set4_iv _ _ _ _ p b (by omega) (by omega)]
      rw [getD4_iv _ _ _ _ p (by omega) (by omega)] at hb
      refine ideal_open_fail pass salt (iv.set (p - salt.length) b) _ ct aad h64
        (by simp [h12]) h16 ?_
      intro he
      obtain ⟨_, hi, _, _⟩ := idealMac_inj he
      exact set_ne_self (by omega) hb hi
    · by_cases hc3 : p < 92
      · rw [set4_tag _ _ _ _ p b (by omega) (by omega)]
        rw [getD4_tag _ _ _ _ p (by omega) (by omega)] at hb
        refine ideal_open_fail pass salt iv _ ct aad h64 h12 (by simp [h16]) ?_
        intro he
        exact set_ne_self (p := p - salt.length - iv.length) (by omega) hb he.symm
      · rw [set4_ct _ _ _ _ p b (by omega)]
        rw [getD4_ct _ _ _ _ p (by omega)] at hb
        refine ideal_open_fail pass salt iv _ (ct.set (p - salt.length - iv.length -
          (idealPrims.mac (idealPrims.pbkdf2 pass salt) iv aad ct).length) b) aad
          h64 h12 h16 ?_
        intro he
        obtain ⟨_, _, _, hc⟩ := idealMac_inj he
        exact set_ne_self (by omega) hb hc

theorem c2_aad_fail (pass salt iv ct : List Nat) (aad aad2 : Option (List Nat))
    (h64 : salt.length = 64) (h12 : iv.length = 12) (hne : aad2 ≠ aad) :
    decryptFn idealPrims
      (idealPrims.pbkdf2 pass
        ((salt ++ iv ++ idealPrims.mac (idealPrims.pbkdf2 pass salt) iv aad ct ++
          ct).take 64))
      (salt ++ iv ++ idealPrims.mac (idealPrims.pbkdf2 pass salt) iv aad ct ++ ct)
      aad2 = .error .authentication := by
  refine ideal_open_fail pass salt iv _ ct aad2 h64 h12 (idealMac_length _ _ _ _) ?_
  intro he
  obtain ⟨_, _, ha, _⟩ := idealMac_inj he
  exact hne ha

theorem rawEnvelope_length_ideal (s iv key salt : List Nat) (aad : Option (List Nat))
    (h64 : salt.length = 64) (h12 : iv.length = 12) :
    (rawEnvelope idealPrims s iv key salt aad).length = 92 + s.length := by
  unfold rawEnvelope
  simp only [List.length_append, h64, h12, xorStream_length]
  have h16 : (idealPrims.mac key iv aad (xorStream (idealPrims.ks key iv) 0 s)).length
      = 16 := idealMac_length _ _ _ _
  omega

set_option maxHeartbeats 1600000 in
/-- C2: for every envelope produced by encrypt under the ideal
authentication tag of the spec (the tag matches only if key, nonce, AAD
and ciphertext all match), flipping any byte of the decoded envelope —
in the salt range `[0,64)`, the nonce range `[64,76)`, the tag range
`[76,92)` or the ciphertext range `[92,end)` — or supplying on decrypt a
valid AAD whose binding differs from the one supplied on encrypt, makes
decrypt and decryptSync fail with the authentication error; the failing
result carries no plaintext. -/
theorem c2_tamper_authentication (pass : List Nat) (v : JValue) (aadA : AADArg)
    (st : St) (salt iv : List Nat) (h64 : salt.length = 64) (h12 : iv.length = 12)
    (hA : _validateAAD aadA = none) :
    (encryptFn idealPrims (serJ v) iv (idealPrims.pbkdf2 pass salt) salt
      (aadOpt aadA) =
      b64encode (rawEnvelope idealPrims (serJ v) iv (idealPrims.pbkdf2 pass salt)
        salt (aadOpt aadA))) ∧
    (∀ p b,
      p < (rawEnvelope idealPrims (serJ v) iv (idealPrims.pbkdf2 pass salt) salt
        (aadOpt aadA)).length →
      b ≠ (rawEnvelope idealPrims (serJ v) iv (idealPrims.pbkdf2 pass salt) salt
        (aadOpt aadA)).getD p 0 →
      ((decryptS idealPrims pass
          (.raw ((rawEnvelope idealPrims (serJ v) iv (idealPrims.pbkdf2 pass salt)
            salt (aadOpt aadA)).set p b)) aadA st).1 = .error .authentication ∧
       (decryptA idealPrims pass
          (.raw ((rawEnvelope idealPrims (serJ v) iv (idealPrims.pbkdf2 pass salt)
            salt (aadOpt aadA)).set p b)) aadA st).1 = .error .authentication)) ∧
    (∀ aadA2, _validateAAD aadA2 = none → aadOpt aadA2 ≠ aadOpt aadA →
      ((decryptS idealPrims pass
          (.raw (rawEnvelope idealPrims (serJ v) iv (idealPrims.pbkdf2 pass salt)
            salt (aadOpt aadA))) aadA2 st).1 = .error .authentication ∧
       (decryptA idealPrims pass
          (.raw (rawEnvelope idealPrims (serJ v) iv (idealPrims.pbkdf2 pass salt)
            salt (aadOpt aadA))) aadA2 st).1 = .error .authentication)) := by
  refine ⟨rfl, ?_, ?_⟩
  · intro p b hp hb
    rw [rawEnvelope_def] at hb
    have hlen := rawEnvelope_length_ideal (serJ v) iv (idealPrims.pbkdf2 pass salt)
      salt (aadOpt aadA) h64 h12
    have hx := xorStream_length
      (idealPrims.ks (idealPrims.pbkdf2 pass salt) iv) 0 (serJ v)
    have hp' : p < 92 +
        (xorStream (idealPrims.ks (idealPrims.pbkdf2 pass salt) iv) 0
          (serJ v)).length := by omega
    constructor
    · rw [congrArg Prod.fst (decryptS_run idealPrims pass _ aadA st hA),
          rawEnvelope_def]
      exact c2_flip pass salt iv _ (aadOpt aadA) h64 h12 p b hp' hb
    · rw [congrArg Prod.fst (decryptA_run idealPrims pass _ aadA st hA),
          rawEnvelope_def]
      exact c2_flip pass salt iv _ (aadOpt aadA) h64 h12 p b hp' hb
  · intro aadA2 hv2 hne
    constructor
    · rw [congrArg Prod.fst (decryptS_run idealPrims pass _ aadA2 st hv2),
          rawEnvelope_def]
      exact c2_aad_fail pass salt iv _ (aadOpt aadA) (aadOpt aadA2) h64 h12 hne
    · rw [congrArg Prod.fst (decryptA_run idealPrims pass _ aadA2 st hv2),
          rawEnvelope_def]
      exact c2_aad_fail pass salt iv _ (aadOpt aadA) (aadOpt aadA2) h64 h12 hne

/-- C2 witness. -/
theorem c2_tamper_authentication_witness :
    (decryptS idealPrims [1]
      (.raw (rawEnvelope idealPrims (serJ .null) (List.replicate 12 5)
        (idealPrims.pbkdf2 [1] (List.replicate 64 7)) (List.replicate 64 7)
        (aadOpt .nullish))) (.str [1]) st0).1 = .error .authentication ∧
    (decryptA idealPrims [1]
      (.raw (rawEnvelope idealPrims (serJ .null) (List.replicate 12 5)
        (idealPrims.pbkdf2 [1] (List.replicate 64 7)) (List.replicate 64 7)
        (aadOpt .nullish))) (.str [1]) st0).1 = .error .authentication :=
  (c2_tamper_authentication [1] .null .nullish st0 (List.replicate 64 7)
    (List.replicate 12 5) (by decide) (by decide) rfl).2.2 (.str [1]) rfl (by decide)
